import Mathlib

/-!
Verification of the fluid-typography scale engine (src/index.ts, src/merge.ts,
src/preset.ts) against its specification.

Numbers are modelled as rationals.  JavaScript records (plain objects keyed by
strings) are modelled as association lists `List (String × α)` together with a
lookup function; object spread / assignment is modelled by `setKey` / `spread`,
which reproduce the insertion-order, last-write-wins semantics of object
literals.  `Number.prototype.toFixed(4)` is modelled by `toFixed4`: round half
away from zero at the fourth decimal and print exactly four fractional digits
(the concrete values appearing in the claims are far from decimal rounding
boundaries, so the binary-double rounding of the source and this rational
rounding agree on them).
-/

/-- Typography scale tuple `[minPx, maxPx]` (source: `type ScaleTuple`). -/
abbrev ScaleTuple := ℚ × ℚ

/-- Configuration for one custom typography scale (source: `interface ScaleConfig`).
Optional fields are `Option`; an absent field is `none`. -/
structure ScaleConfig where
  size : ScaleTuple
  lineHeight : Option ℚ := none
  fontWeight : Option String := none
  letterSpacing : Option String := none
  textTransform : Option String := none

/-- Plugin options (source: `interface PluginOptions`).  A wholly absent options
argument is modelled by all fields `none`. -/
structure PluginOptions where
  customScales : Option (List (String × ScaleConfig)) := none
  minViewportWidth : Option ℚ := none
  maxViewportWidth : Option ℚ := none

/-- Default typography scale definitions (source: `DEFAULT_SCALE`). -/
def DEFAULT_SCALE : List (String × ScaleTuple) :=
  [("display-2xl", (48, 72)),
   ("display-xl", (40, 60)),
   ("display-lg", (32, 48)),
   ("display", (28, 36)),
   ("h1", (28, 36)),
   ("h2", (24, 30)),
   ("h3", (20, 24)),
   ("body-xl", (17, 20)),
   ("body-lg", (15, 18)),
   ("body", (14, 16)),
   ("body-sm", (13, 14)),
   ("body-xs", (11, 12)),
   ("caption", (10, 11)),
   ("overline", (10, 11))]

/-- Lookup in a string-keyed association list (the value of `record[key]`). -/
def rlookup {α : Type} : List (String × α) → String → Option α
  | [], _ => none
  | p :: t, k => if p.1 = k then some p.2 else rlookup t k

/-- JavaScript object assignment `record[k] = v`: replace in place when the key
is present, append otherwise. -/
def setKey {α : Type} (r : List (String × α)) (k : String) (v : α) : List (String × α) :=
  if (rlookup r k).isSome then r.map (fun p => if p.1 = k then (k, v) else p)
  else r ++ [(k, v)]

/-- Object-spread semantics of an object literal built from `r`s entries
followed by `adds`s entries, in order, last write wins. -/
def spread {α : Type} (r : List (String × α)) (adds : List (String × α)) : List (String × α) :=
  adds.foldl (fun acc p => setKey acc p.1 p.2) r

/-- Rounding of `x` to the scaled integer `round(x * 10^4)` used by
`toFixed(4)` on a nonnegative value: floor of `x * 10000 + 1/2`. -/
def scaled4 (x : ℚ) : ℤ := ⌊x * 10000 + 1 / 2⌋

/-- Numeric value printed by `toFixed(4)` (round half away from zero to four
decimal places). -/
def q4 (x : ℚ) : ℚ :=
  if x < 0 then -(((scaled4 (-x) : ℤ) : ℚ) / 10000) else ((scaled4 x : ℤ) : ℚ) / 10000

/-- Left-pad the fractional part to exactly four digits. -/
def zpad4 (k : ℕ) : String :=
  if k < 10 then "000" ++ toString k
  else if k < 100 then "00" ++ toString k
  else if k < 1000 then "0" ++ toString k
  else toString k

/-- Print a nonnegative scaled integer `n = round(x * 10^4)` as a decimal
numeral with exactly four fractional digits. -/
def fixed4OfInt (n : ℤ) : String :=
  toString (n.toNat / 10000) ++ "." ++ zpad4 (n.toNat % 10000)

/-- Model of `x.toFixed(4)` of ECMA-262: for negative `x`, a minus sign followed
by the rendering of `-x`. -/
def toFixed4 (x : ℚ) : String :=
  if x < 0 then "-" ++ fixed4OfInt (scaled4 (-x)) else fixed4OfInt (scaled4 x)

/-- First element of the tuple in rem (source: `const min = minPx / 16`). -/
def clampMin (t : ScaleTuple) : ℚ := t.1 / 16

/-- Second element of the tuple in rem (source: `const max = maxPx / 16`). -/
def clampMax (t : ScaleTuple) : ℚ := t.2 / 16

/-- Slope of the interpolation (source: `const slope = (max - min) / (maxWidth - minWidth)`
with `minWidth = minViewportPx / 16`, `maxWidth = maxViewportPx / 16`). -/
def slopeOf (t : ScaleTuple) (minViewportPx maxViewportPx : ℚ) : ℚ :=
  (clampMax t - clampMin t) / (maxViewportPx / 16 - minViewportPx / 16)

/-- Constant term of the linear function (source: `const intercept = min - slope * minWidth`). -/
def interceptOf (t : ScaleTuple) (minViewportPx maxViewportPx : ℚ) : ℚ :=
  clampMin t - slopeOf t minViewportPx maxViewportPx * (minViewportPx / 16)

/-- Slope as a coefficient on vw units (source: `const slopeVw = slope * 100`). -/
def slopeVwOf (t : ScaleTuple) (minViewportPx maxViewportPx : ℚ) : ℚ :=
  slopeOf t minViewportPx maxViewportPx * 100

/-- Fluid clamp expression from px values (source: `clampFromPx`).  The source
gives the viewport parameters defaults 375 and 1440; callers here always pass
them explicitly. -/
def clampFromPx (t : ScaleTuple) (minViewportPx maxViewportPx : ℚ) : String :=
  "clamp(" ++ toFixed4 (clampMin t) ++ "rem, " ++
    toFixed4 (interceptOf t minViewportPx maxViewportPx) ++ "rem + " ++
    toFixed4 (slopeVwOf t minViewportPx maxViewportPx) ++ "vw, " ++
    toFixed4 (clampMax t) ++ "rem)"

/-- Value in rem of the linear expression `intercept + slopeVw vw` inside the
generated clamp at viewport width `v` px, with the exact (pre-rounding)
coefficients: `1vw = v/100 px = v/1600 rem`. -/
def linearAt (t : ScaleTuple) (minV maxV v : ℚ) : ℚ :=
  interceptOf t minV maxV + slopeVwOf t minV maxV * (v / 1600)

/-- Value in rem of the linear expression at viewport width `v` px with the
four-decimal-rounded coefficients actually printed in the string. -/
def linearRoundedAt (t : ScaleTuple) (minV maxV v : ℚ) : ℚ :=
  q4 (interceptOf t minV maxV) + q4 (slopeVwOf t minV maxV) * (v / 1600)

/-- CSS semantics of the generated `clamp(min, linear, max)` at viewport width
`v` px, with the exact coefficients. -/
def clampAt (t : ScaleTuple) (minV maxV v : ℚ) : ℚ :=
  max (clampMin t) (min (linearAt t minV maxV v) (clampMax t))

/-- Merge default scales with custom scales (source: `getMergedScale`). -/
def getMergedScale (options : PluginOptions) : List (String × ScaleTuple) :=
  match options.customScales with
  | none => DEFAULT_SCALE
  | some cs => spread DEFAULT_SCALE (cs.map (fun p => (p.1, p.2.size)))

/-- Safelist of all typography classes (source: `getTypographySafelist`). -/
def getTypographySafelist (options : PluginOptions) : List String :=
  (getMergedScale options).map (fun p => "text-" ++ p.1)

/-- Per-selector rule data (source: `interface RuleConfig`).  The optional
`upper` of the source is falsy when absent, hence a plain `Bool`. -/
structure RuleConfig where
  size : ScaleTuple
  lh : ℚ
  weight : String
  tracking : Option String := none
  upper : Bool := false

/-- Built-in rules for the default scale names (source: `getDefaultRules`).
Sizes are the values the source reads off `DEFAULT_SCALE`. -/
def getDefaultRules : List (String × RuleConfig) :=
  [(".text-display-2xl", { size := (48, 72), lh := 1.0, weight := "800", tracking := some "-0.02em" }),
   (".text-display-xl", { size := (40, 60), lh := 1.05, weight := "800", tracking := some "-0.02em" }),
   (".text-display-lg", { size := (32, 48), lh := 1.1, weight := "700", tracking := some "-0.015em" }),
   (".text-display", { size := (28, 36), lh := 1.1, weight := "700", tracking := some "-0.015em" }),
   (".text-h1", { size := (28, 36), lh := 1.2, weight := "700", tracking := some "-0.015em" }),
   (".text-h2", { size := (24, 30), lh := 1.3, weight := "700", tracking := some "-0.01em" }),
   (".text-h3", { size := (20, 24), lh := 1.4, weight := "600" }),
   (".text-body-xl", { size := (17, 20), lh := 1.5, weight := "400" }),
   (".text-body-lg", { size := (15, 18), lh := 1.5, weight := "400" }),
   (".text-body", { size := (14, 16), lh := 1.5, weight := "400" }),
   (".text-body-sm", { size := (13, 14), lh := 1.5, weight := "400" }),
   (".text-body-xs", { size := (11, 12), lh := 1.5, weight := "400" }),
   (".text-caption", { size := (10, 11), lh := 1.4, weight := "400" }),
   (".text-overline", { size := (10, 11), lh := 1.5, weight := "600", tracking := some "0.1em", upper := true })]

/-- Rule built from one custom scale config (source: the loop body of
`getMergedRules`): line height defaults to 1.5, weight to 400, tracking is the
given letter spacing, upper is set exactly for a literal uppercase transform. -/
def ruleOfConfig (config : ScaleConfig) : RuleConfig :=
  { size := config.size,
    lh := config.lineHeight.getD (3 / 2),
    weight := config.fontWeight.getD "400",
    tracking := config.letterSpacing,
    upper := decide (config.textTransform = some "uppercase") }

/-- Merge default rules with custom scale rules (source: `getMergedRules`). -/
def getMergedRules (options : PluginOptions) : List (String × RuleConfig) :=
  match options.customScales with
  | none => getDefaultRules
  | some cs => spread getDefaultRules (cs.map (fun p => (".text-" ++ p.1, ruleOfConfig p.2)))

/-- One emitted component style object (source: the object literal in the
plugin body).  The numeric line height is stringified in the source; the
number itself is kept here.  `letterSpacing` reflects the truthiness guard
`cfg.tracking && ...` (an empty string is falsy and omitted);
`textTransform` reflects `cfg.upper && ...`. -/
structure StyleObject where
  fontSize : String
  lineHeight : ℚ
  fontWeight : String
  letterSpacing : Option String
  textTransform : Option String

/-- Style object built from one rule (source: the loop body of the plugin
callback). -/
def mkStyle (cfg : RuleConfig) (minVw maxVw : ℚ) : StyleObject :=
  { fontSize := clampFromPx cfg.size minVw maxVw,
    lineHeight := cfg.lh,
    fontWeight := cfg.weight,
    letterSpacing :=
      match cfg.tracking with
      | some s => if s = "" then none else some s
      | none => none,
    textTransform := if cfg.upper then some "uppercase" else none }

/-- Components table built by the plugin callback (source: the body of
`plugin.withOptions`): for every merged rule one style object, with the
viewport bounds defaulted to 375 and 1440. -/
def buildComponents (options : PluginOptions) : List (String × StyleObject) :=
  (getMergedRules options).map
    (fun p => (p.1, mkStyle p.2 (options.minViewportWidth.getD 375) (options.maxViewportWidth.getD 1440)))

/-- Merged scale keys (source: `getMergedScaleKeys` in src/index.ts and
src/merge.ts): default keys followed by custom keys, not deduplicated. -/
def getMergedScaleKeys (options : PluginOptions) : List String :=
  match options.customScales with
  | none => DEFAULT_SCALE.map Prod.fst
  | some cs => DEFAULT_SCALE.map Prod.fst ++ cs.map Prod.fst

/-- Class-group table of the tailwind-merge configuration (source:
`getFluidTypographyMergeConfig`); the fixed `extend.classGroups` wrapper
objects are elided, the table of group-key to class list is kept. -/
def getFluidTypographyMergeConfig (options : PluginOptions) : List (String × List String) :=
  [("font-size", (getMergedScaleKeys options).map (fun key => "text-" ++ key))]

/-! ### Association-list lemmas -/

/-- First-of-two alternative on options. -/
def oalt {α : Type} (a b : Option α) : Option α :=
  match a with
  | some v => some v
  | none => b

theorem oalt_some {α : Type} (v : α) (b : Option α) : oalt (some v) b = some v := rfl

theorem oalt_none_left {α : Type} (b : Option α) : oalt none b = b := rfl

theorem oalt_none_right {α : Type} (a : Option α) : oalt a none = a := by
  cases a <;> rfl

theorem oalt_assoc {α : Type} (a b c : Option α) :
    oalt (oalt a b) c = oalt a (oalt b c) := by
  cases a <;> rfl

theorem oalt_isSome {α : Type} (a b : Option α) :
    (oalt a b).isSome = (a.isSome || b.isSome) := by
  cases a <;> rfl

theorem rlookup_append {α : Type} (l₁ l₂ : List (String × α)) (k : String) :
    rlookup (l₁ ++ l₂) k = oalt (rlookup l₁ k) (rlookup l₂ k) := by
  induction l₁ with
  | nil => rfl
  | cons p t ih =>
    by_cases h : p.1 = k <;> simp [rlookup, h, ih, oalt]

theorem rlookup_eq_none {α : Type} (l : List (String × α)) (k : String)
    (h : k ∉ l.map Prod.fst) : rlookup l k = none := by
  induction l with
  | nil => rfl
  | cons p t ih =>
    simp only [List.map_cons, List.mem_cons] at h
    push_neg at h
    simp [rlookup, Ne.symm h.1, ih h.2]

theorem rlookup_isSome_iff {α : Type} (l : List (String × α)) (k : String) :
    (rlookup l k).isSome ↔ k ∈ l.map Prod.fst := by
  induction l with
  | nil => simp [rlookup]
  | cons p t ih =>
    by_cases h : p.1 = k
    · simp [rlookup, h]
    · simp only [rlookup, if_neg h, List.map_cons, List.mem_cons]
      rw [ih]
      constructor
      · exact Or.inr
      · rintro (hk | hk)
        · exact absurd hk.symm h
        · exact hk

theorem rlookup_of_mem_nodup {α : Type} {l : List (String × α)} {k : String} {v : α}
    (hnd : (l.map Prod.fst).Nodup) (hmem : (k, v) ∈ l) : rlookup l k = some v := by
  induction l with
  | nil => cases hmem
  | cons p t ih =>
    simp only [List.map_cons, List.nodup_cons] at hnd
    rcases List.mem_cons.mp hmem with h | h
    · simp [rlookup, ← h]
    · have hk : p.1 ≠ k := by
        intro hpk
        exact hnd.1 (hpk ▸ List.mem_map_of_mem Prod.fst h)
      simp [rlookup, hk, ih hnd.2 h]

theorem rlookup_map_value {α β : Type} (l : List (String × α)) (g : α → β) (k : String) :
    rlookup (l.map (fun p => (p.1, g p.2))) k = (rlookup l k).map g := by
  induction l with
  | nil => rfl
  | cons p t ih =>
    by_cases h : p.1 = k <;> simp [rlookup, h, ih]

theorem rlookup_map_replace {α : Type} (t : List (String × α)) (k : String) (v : α)
    (h : (rlookup t k).isSome) :
    rlookup (t.map (fun p => if p.1 = k then (k, v) else p)) k = some v := by
  induction t with
  | nil => simp [rlookup] at h
  | cons p t ih =>
    by_cases hp : p.1 = k
    · simp [rlookup, hp]
    · have h2 : (rlookup t k).isSome := by simpa [rlookup, hp] using h
      simpa [rlookup, hp] using ih h2

theorem rlookup_map_replace_ne {α : Type} (t : List (String × α)) (k k' : String) (v : α)
    (h : k' ≠ k) :
    rlookup (t.map (fun p => if p.1 = k then (k, v) else p)) k' = rlookup t k' := by
  induction t with
  | nil => rfl
  | cons p t ih =>
    by_cases hp : p.1 = k
    · have hk : ¬k = k' := fun hh => h hh.symm
      have hpk : ¬p.1 = k' := by rw [hp]; exact hk
      simp [rlookup, hp, hk, hpk, ih]
    · simp [rlookup, hp, ih]

theorem rlookup_setKey_self {α : Type} (r : List (String × α)) (k : String) (v : α) :
    rlookup (setKey r k v) k = some v := by
  rw [setKey]
  by_cases h : (rlookup r k).isSome
  · rw [if_pos h]
    exact rlookup_map_replace r k v h
  · rw [if_neg h, rlookup_append]
    have hn : rlookup r k = none := Option.not_isSome_iff_eq_none.mp h
    simp [hn, oalt, rlookup]

theorem rlookup_setKey_ne {α : Type} (r : List (String × α)) (k k' : String) (v : α)
    (h : k' ≠ k) : rlookup (setKey r k v) k' = rlookup r k' := by
  rw [setKey]
  by_cases hs : (rlookup r k).isSome
  · rw [if_pos hs]
    exact rlookup_map_replace_ne r k k' v h
  · rw [if_neg hs, rlookup_append]
    have hk : ¬k = k' := fun hh => h hh.symm
    simp [rlookup, hk, oalt_none_right]

theorem rlookup_setKey {α : Type} (r : List (String × α)) (k k' : String) (v : α) :
    rlookup (setKey r k v) k' = if k' = k then some v else rlookup r k' := by
  by_cases h : k' = k
  · rw [if_pos h, h, rlookup_setKey_self]
  · rw [if_neg h, rlookup_setKey_ne _ _ _ _ h]

theorem rlookup_spread {α : Type} (adds r : List (String × α)) (k : String) :
    rlookup (spread r adds) k = oalt (rlookup adds.reverse k) (rlookup r k) := by
  induction adds generalizing r with
  | nil => simp [spread, rlookup, oalt]
  | cons p t ih =>
    have hstep : spread r (p :: t) = spread (setKey r p.1 p.2) t := rfl
    rw [hstep, ih, List.reverse_cons, rlookup_append, oalt_assoc]
    congr 1
    rw [rlookup_setKey]
    by_cases h : k = p.1 <;> simp [rlookup, h, oalt, eq_comm]

theorem rlookup_reverse_of_nodup {α : Type} {l : List (String × α)}
    (hnd : (l.map Prod.fst).Nodup) (k : String) :
    rlookup l.reverse k = rlookup l k := by
  induction l with
  | nil => rfl
  | cons p t ih =>
    simp only [List.map_cons, List.nodup_cons] at hnd
    rw [List.reverse_cons, rlookup_append, ih hnd.2]
    by_cases h : p.1 = k
    · have : rlookup t k = none := by
        apply rlookup_eq_none
        rw [← h]; exact hnd.1
      simp [rlookup, this, h, oalt]
    · simp [rlookup, h, oalt_none_right]

theorem rlookup_spread_isSome {α : Type} (adds r : List (String × α)) (k : String) :
    (rlookup (spread r adds) k).isSome ↔
      ((rlookup r k).isSome ∨ (rlookup adds k).isSome) := by
  rw [rlookup_spread, oalt_isSome, Bool.or_eq_true]
  constructor
  · rintro (h | h)
    · right
      rw [rlookup_isSome_iff] at h ⊢
      rw [List.map_reverse, List.mem_reverse] at h
      exact h
    · left; exact h
  · rintro (h | h)
    · right; exact h
    · left
      rw [rlookup_isSome_iff] at h ⊢
      rw [List.map_reverse, List.mem_reverse]
      exact h

/-- Every entry of `S` carrying key `k` has value `v`, and `k` is present. -/
def allKV {α : Type} (S : List (String × α)) (k : String) (v : α) : Prop :=
  (rlookup S k).isSome ∧ ∀ p ∈ S, p.1 = k → p.2 = v

theorem map_id_of_forall {α : Type} (l : List α) (f : α → α) (h : ∀ x ∈ l, f x = x) :
    l.map f = l := by
  induction l with
  | nil => rfl
  | cons q t ih =>
    simp only [List.map_cons]
    rw [h q (List.mem_cons_self q t), ih (fun x hx => h x (List.mem_cons_of_mem q hx))]

theorem setKey_of_allKV {α : Type} {S : List (String × α)} {k : String} {v : α}
    (h : allKV S k v) : setKey S k v = S := by
  rw [setKey, if_pos h.1]
  apply map_id_of_forall
  intro p hp
  by_cases hpk : p.1 = k
  · have hv : p.2 = v := h.2 p hp hpk
    show (if p.1 = k then (k, v) else p) = p
    rw [if_pos hpk, ← hpk, ← hv]
  · show (if p.1 = k then (k, v) else p) = p
    rw [if_neg hpk]

theorem allKV_setKey_self {α : Type} (S : List (String × α)) (k : String) (v : α) :
    allKV (setKey S k v) k v := by
  constructor
  · rw [rlookup_setKey_self]; rfl
  · intro p hp hpk
    rw [setKey] at hp
    by_cases h : (rlookup S k).isSome
    · rw [if_pos h] at hp
      rcases List.mem_map.mp hp with ⟨q, _, hq⟩
      by_cases hqk : q.1 = k
      · rw [if_pos hqk] at hq; rw [← hq]
      · rw [if_neg hqk] at hq; rw [← hq] at hpk; exact absurd hpk hqk
    · rw [if_neg h] at hp
      rcases List.mem_append.mp hp with hmem | hmem
      · have : k ∈ S.map Prod.fst := hpk ▸ List.mem_map_of_mem Prod.fst hmem
        rw [← rlookup_isSome_iff] at this
        exact absurd this h
      · rcases List.mem_singleton.mp hmem with rfl; rfl

theorem allKV_setKey_ne {α : Type} {S : List (String × α)} {k : String} {v : α}
    (k' : String) (v' : α) (hne : k' ≠ k) (h : allKV S k v) :
    allKV (setKey S k' v') k v := by
  constructor
  · rw [rlookup_setKey_ne _ _ _ _ (fun hh => hne hh.symm)]; exact h.1
  · intro p hp hpk
    rw [setKey] at hp
    by_cases hs : (rlookup S k').isSome
    · rw [if_pos hs] at hp
      rcases List.mem_map.mp hp with ⟨q, hq_mem, hq⟩
      by_cases hqk : q.1 = k'
      · rw [if_pos hqk] at hq
        rw [← hq] at hpk
        exact absurd hpk hne
      · rw [if_neg hqk] at hq
        rw [← hq] at hpk ⊢
        exact h.2 q hq_mem hpk
    · rw [if_neg hs] at hp
      rcases List.mem_append.mp hp with hmem | hmem
      · exact h.2 p hmem hpk
      · rcases List.mem_singleton.mp hmem with rfl
        exact absurd hpk hne

theorem allKV_spread_of_not_mem {α : Type} {S : List (String × α)} {k : String} {v : α}
    (adds : List (String × α)) (hk : k ∉ adds.map Prod.fst) (h : allKV S k v) :
    allKV (spread S adds) k v := by
  induction adds generalizing S with
  | nil => exact h
  | cons p t ih =>
    simp only [List.map_cons, List.mem_cons] at hk
    push_neg at hk
    have hstep : spread S (p :: t) = spread (setKey S p.1 p.2) t := rfl
    rw [hstep]
    exact ih hk.2 (allKV_setKey_ne p.1 p.2 (fun hh => hk.1 hh.symm) h)

theorem allKV_spread_of_mem {α : Type} {adds : List (String × α)} {k : String} {v : α}
    (S : List (String × α)) (hnd : (adds.map Prod.fst).Nodup) (hmem : (k, v) ∈ adds) :
    allKV (spread S adds) k v := by
  induction adds generalizing S with
  | nil => cases hmem
  | cons p t ih =>
    simp only [List.map_cons, List.nodup_cons] at hnd
    have hstep : spread S (p :: t) = spread (setKey S p.1 p.2) t := rfl
    rw [hstep]
    rcases List.mem_cons.mp hmem with h | h
    · rw [← h] at hnd ⊢
      exact allKV_spread_of_not_mem t hnd.1 (allKV_setKey_self S k v)
    · exact ih (setKey S p.1 p.2) hnd.2 h

theorem spread_of_allKV {α : Type} {adds : List (String × α)} {S : List (String × α)}
    (h : ∀ p ∈ adds, allKV S p.1 p.2) : spread S adds = S := by
  induction adds with
  | nil => rfl
  | cons p t ih =>
    have hstep : spread S (p :: t) = spread (setKey S p.1 p.2) t := rfl
    rw [hstep, setKey_of_allKV (h p (List.mem_cons_self p t))]
    exact ih (fun q hq => h q (List.mem_cons_of_mem p hq))

theorem spread_idem {α : Type} (S adds : List (String × α))
    (hnd : (adds.map Prod.fst).Nodup) :
    spread (spread S adds) adds = spread S adds := by
  apply spread_of_allKV
  intro p hp
  exact allKV_spread_of_mem S hnd hp

/-! ### Rounding lemmas -/

theorem q4_sub_abs_le_of_nonneg (x : ℚ) (hx : 0 ≤ x) : |q4 x - x| ≤ 1 / 20000 := by
  rw [q4, if_neg (not_lt.mpr hx), scaled4]
  have h1 : ((⌊x * 10000 + 1 / 2⌋ : ℤ) : ℚ) ≤ x * 10000 + 1 / 2 := Int.floor_le _
  have h2 : x * 10000 + 1 / 2 - 1 < ((⌊x * 10000 + 1 / 2⌋ : ℤ) : ℚ) := Int.sub_one_lt_floor _
  rw [abs_le]
  constructor <;> [linarith ; linarith]

theorem q4_neg (x : ℚ) (hx : x < 0) : q4 x = -q4 (-x) := by
  rw [q4, if_pos hx, q4, if_neg (not_lt.mpr (le_of_lt (neg_pos.mpr hx)))]

theorem q4_sub_abs_le (x : ℚ) : |q4 x - x| ≤ 1 / 20000 := by
  rcases le_or_lt 0 x with hx | hx
  · exact q4_sub_abs_le_of_nonneg x hx
  · rw [q4_neg x hx]
    have : -q4 (-x) - x = -(q4 (-x) - -x) := by ring
    rw [this, abs_neg]
    exact q4_sub_abs_le_of_nonneg (-x) (le_of_lt (neg_pos.mpr hx))

theorem q4_nonneg (x : ℚ) (hx : 0 ≤ x) : 0 ≤ q4 x := by
  rw [q4, if_neg (not_lt.mpr hx), scaled4]
  have : (0 : ℤ) ≤ ⌊x * 10000 + 1 / 2⌋ := by
    apply Int.floor_nonneg.mpr
    linarith
  positivity

/-! ### Concrete evaluation helpers -/

theorem toFixed4_of_scaled (x : ℚ) (n : ℤ) (hx : ¬x < 0) (hn : scaled4 x = n) :
    toFixed4 x = fixed4OfInt n := by
  rw [toFixed4, if_neg hx, hn]

theorem clampFromPx_h1_eval :
    clampFromPx (28, 36) 375 1440 = "clamp(1.7500rem, 1.5739rem + 0.7512vw, 2.2500rem)" := by
  have hmin : clampMin (28, 36) = 7 / 4 := by norm_num [clampMin]
  have hmax : clampMax (28, 36) = 9 / 4 := by norm_num [clampMax]
  have hint : interceptOf (28, 36) 375 1440 = 447 / 284 := by
    norm_num [interceptOf, slopeOf, clampMin, clampMax]
  have hsl : slopeVwOf (28, 36) 375 1440 = 160 / 213 := by
    norm_num [slopeVwOf, slopeOf, clampMin, clampMax]
  rw [clampFromPx, hmin, hmax, hint, hsl]
  rw [toFixed4_of_scaled (7 / 4) 17500 (by norm_num)
    (by rw [scaled4, Int.floor_eq_iff] ; constructor <;> norm_num)]
  rw [toFixed4_of_scaled (447 / 284) 15739 (by norm_num)
    (by rw [scaled4, Int.floor_eq_iff] ; constructor <;> norm_num)]
  rw [toFixed4_of_scaled (160 / 213) 7512 (by norm_num)
    (by rw [scaled4, Int.floor_eq_iff] ; constructor <;> norm_num)]
  rw [toFixed4_of_scaled (9 / 4) 22500 (by norm_num)
    (by rw [scaled4, Int.floor_eq_iff] ; constructor <;> norm_num)]
  decide

/-! ### Claim C1 -/

/-- C1, counterexample: for the base entry `h1 = [28, 36]` and viewport bounds
375 and 1440, `clampFromPx` does not return the string the specification
example gives.  The specification miscomputed the slope. -/
theorem clampFromPx_spec_string_ne :
    clampFromPx (28, 36) 375 1440 ≠ "clamp(1.7500rem, 1.5740rem + 0.7503vw, 2.2500rem)" := by
  rw [clampFromPx_h1_eval]
  decide

/-- C1 (corrected): for the base entry `h1 = [28, 36]` and viewport bounds
375 and 1440, `clampFromPx` returns exactly
`clamp(1.7500rem, 1.5739rem + 0.7512vw, 2.2500rem)`: the true slope is
`(2.25 - 1.75) / (90 - 23.4375) = 0.0075117...`, so the printed coefficients
are 0.7512 (slope in vw) and 1.5739 (intercept), all three values having
exactly four decimal digits. -/
theorem clampFromPx_h1_example :
    clampFromPx (28, 36) 375 1440 = "clamp(1.7500rem, 1.5739rem + 0.7512vw, 2.2500rem)" :=
  clampFromPx_h1_eval

/-! ### Claim C9 -/

/-- C9 (confirmed): for the default configuration (no options), the safelist
contains exactly one entry per default scale name, each being that name with
the identical leading token `text-`, with no duplicate entries. -/
theorem typographySafelist_default :
    getTypographySafelist ⟨none, none, none⟩ =
      (DEFAULT_SCALE.map Prod.fst).map (fun k => "text-" ++ k)
    ∧ (getTypographySafelist ⟨none, none, none⟩).Nodup
    ∧ ∀ p ∈ DEFAULT_SCALE,
        ((getTypographySafelist ⟨none, none, none⟩).count ("text-" ++ p.1)) = 1 :=
  ⟨rfl, by decide, by decide⟩

/-! ### Claim C8 -/

/-- C8, counterexample: with a custom scale reusing the default name `h1`, the
single class-group list of `getFluidTypographyMergeConfig` contains the entry
`text-h1` twice, although the merged (effective) scale table has exactly one
entry named `h1`: the key enumeration concatenates default and custom names
without deduplication. -/
theorem mergeConfig_duplicate_counterexample :
    (((getFluidTypographyMergeConfig
        ⟨some [("h1", { size := ((30 : ℚ), (40 : ℚ)) })], none, none⟩).headD
        ("", [])).2).count "text-h1" = 2
    ∧ ((getMergedScale
        ⟨some [("h1", { size := ((30 : ℚ), (40 : ℚ)) })], none, none⟩).map
        Prod.fst).count "h1" = 1 := by
  constructor <;> decide

/-- C8 (corrected): for every options input, the class-group adapter returns a
table with exactly one group key (`font-size`), whose list is the default
scale names followed by the custom scale names, each mapped to its derived
class selector; the underlying names enumerated are, as a set, exactly the
effective scale names, but when a custom scale reuses a default scale name the
selector appears twice (the list is not deduplicated, so it does not contain
exactly one entry per effective name). -/
theorem mergeConfig_enumerates (opts : PluginOptions) :
    (getFluidTypographyMergeConfig opts).map Prod.fst = ["font-size"]
    ∧ getFluidTypographyMergeConfig opts =
        [("font-size", (getMergedScaleKeys opts).map (fun key => "text-" ++ key))]
    ∧ ∀ k, k ∈ getMergedScaleKeys opts ↔ (rlookup (getMergedScale opts) k).isSome := by
  refine ⟨rfl, rfl, ?_⟩
  intro k
  cases hcs : opts.customScales with
  | none =>
    simp only [getMergedScaleKeys, getMergedScale, hcs]
    exact (rlookup_isSome_iff DEFAULT_SCALE k).symm
  | some cs =>
    simp only [getMergedScaleKeys, getMergedScale, hcs]
    rw [rlookup_spread_isSome]
    have hkeys : ((cs.map (fun p => (p.1, p.2.size))).map Prod.fst) = cs.map Prod.fst := by
      rw [List.map_map]; rfl
    constructor
    · intro h
      rcases List.mem_append.mp h with h | h
      · exact Or.inl ((rlookup_isSome_iff _ _).mpr h)
      · right
        rw [rlookup_isSome_iff, hkeys]
        exact h
    · rintro (h | h)
      · exact List.mem_append_left _ ((rlookup_isSome_iff _ _).mp h)
      · apply List.mem_append_right
        rw [rlookup_isSome_iff, hkeys] at h
        exact h

/-! ### Derived lookup lemmas for spreads -/

theorem mem_of_rlookup {α : Type} {l : List (String × α)} {k : String} {v : α}
    (h : rlookup l k = some v) : (k, v) ∈ l := by
  induction l with
  | nil => cases h
  | cons p t ih =>
    by_cases hp : p.1 = k
    · rw [rlookup, if_pos hp] at h
      rcases Option.some_inj.mp h with rfl
      have hkp : (k, p.2) = p := by
        rw [← hp]
      rw [hkp]
      exact List.mem_cons_self p t
    · rw [rlookup, if_neg hp] at h
      exact List.mem_cons_of_mem p (ih h)

theorem rlookup_spread_of_mem {α : Type} {adds : List (String × α)} {k : String} {v : α}
    (r : List (String × α)) (hnd : (adds.map Prod.fst).Nodup) (hmem : (k, v) ∈ adds) :
    rlookup (spread r adds) k = some v := by
  rw [rlookup_spread, rlookup_reverse_of_nodup hnd, rlookup_of_mem_nodup hnd hmem]
  rfl

theorem rlookup_spread_of_none {α : Type} {adds : List (String × α)} {k : String}
    (r : List (String × α)) (h : rlookup adds k = none) :
    rlookup (spread r adds) k = rlookup r k := by
  rw [rlookup_spread]
  have hmem : k ∉ adds.map Prod.fst := by
    intro hk
    rw [← rlookup_isSome_iff, h] at hk
    cases hk
  have : rlookup adds.reverse k = none := by
    apply rlookup_eq_none
    rw [List.map_reverse, List.mem_reverse]
    exact hmem
  rw [this]
  rfl

theorem textSelector_injective : Function.Injective (fun s : String => ".text-" ++ s) := by
  intro a b hab
  have hd : (".text-" ++ a).data = (".text-" ++ b).data := congrArg String.data hab
  rw [String.data_append, String.data_append] at hd
  have hdata : a.data = b.data := List.append_cancel_left hd
  cases a
  cases b
  exact congrArg String.mk hdata

/-! ### Claim C5 -/

/-- C5 (confirmed): for every base table and every additions mapping (with the
unique keys a JavaScript record guarantees), the merged scale table contains
exactly the names of the base united with the names of the additions; every
name present in the additions maps to the addition size descriptor, replacing
any same-named base entry, and every name absent from the additions maps to
its base descriptor; `getMergedScale` is this merge applied to
`DEFAULT_SCALE`. -/
theorem getMergedScale_merge_semantics (base : List (String × ScaleTuple))
    (cs : List (String × ScaleConfig)) (hnd : (cs.map Prod.fst).Nodup) :
    (∀ k, (rlookup (spread base (cs.map (fun p => (p.1, p.2.size)))) k).isSome ↔
        ((rlookup base k).isSome ∨ (rlookup cs k).isSome))
    ∧ (∀ k config, rlookup cs k = some config →
        rlookup (spread base (cs.map (fun p => (p.1, p.2.size)))) k = some config.size)
    ∧ (∀ k, rlookup cs k = none →
        rlookup (spread base (cs.map (fun p => (p.1, p.2.size)))) k = rlookup base k)
    ∧ getMergedScale ⟨some cs, none, none⟩ =
        spread DEFAULT_SCALE (cs.map (fun p => (p.1, p.2.size))) := by
  have hkeys : ((cs.map (fun p => (p.1, p.2.size))).map Prod.fst) = cs.map Prod.fst := by
    rw [List.map_map]
    rfl
  have hnd2 : ((cs.map (fun p => (p.1, p.2.size))).map Prod.fst).Nodup := by
    rw [hkeys]
    exact hnd
  refine ⟨?_, ?_, ?_, rfl⟩
  · intro k
    rw [rlookup_spread_isSome]
    constructor
    · rintro (h | h)
      · exact Or.inl h
      · right
        rw [rlookup_isSome_iff, hkeys, ← rlookup_isSome_iff] at h
        exact h
    · rintro (h | h)
      · exact Or.inl h
      · right
        rw [rlookup_isSome_iff, hkeys, ← rlookup_isSome_iff]
        exact h
  · intro k config hk
    have hmem : (k, config.size) ∈ cs.map (fun p => (p.1, p.2.size)) :=
      List.mem_map_of_mem (fun p => (p.1, p.2.size)) (mem_of_rlookup hk)
    exact rlookup_spread_of_mem base hnd2 hmem
  · intro k hk
    apply rlookup_spread_of_none
    apply rlookup_eq_none
    rw [hkeys]
    intro hmem
    rw [← rlookup_isSome_iff, hk] at hmem
    cases hmem

/-- C5 witness: the merge semantics at the concrete base table `a -> (1, 2)`
and the concrete addition `a -> size (3, 4)`. -/
theorem getMergedScale_merge_semantics_witness :
    (([("a", ({ size := ((3 : ℚ), (4 : ℚ)) } : ScaleConfig))].map Prod.fst).Nodup)
    ∧ ((∀ k, (rlookup (spread [("a", ((1 : ℚ), (2 : ℚ)))]
          ([("a", ({ size := ((3 : ℚ), (4 : ℚ)) } : ScaleConfig))].map
            (fun p => (p.1, p.2.size)))) k).isSome ↔
        ((rlookup [("a", ((1 : ℚ), (2 : ℚ)))] k).isSome ∨
          (rlookup [("a", ({ size := ((3 : ℚ), (4 : ℚ)) } : ScaleConfig))] k).isSome))
    ∧ (∀ k config, rlookup [("a", ({ size := ((3 : ℚ), (4 : ℚ)) } : ScaleConfig))] k = some config →
        rlookup (spread [("a", ((1 : ℚ), (2 : ℚ)))]
          ([("a", ({ size := ((3 : ℚ), (4 : ℚ)) } : ScaleConfig))].map
            (fun p => (p.1, p.2.size)))) k = some config.size)
    ∧ (∀ k, rlookup [("a", ({ size := ((3 : ℚ), (4 : ℚ)) } : ScaleConfig))] k = none →
        rlookup (spread [("a", ((1 : ℚ), (2 : ℚ)))]
          ([("a", ({ size := ((3 : ℚ), (4 : ℚ)) } : ScaleConfig))].map
            (fun p => (p.1, p.2.size)))) k = rlookup [("a", ((1 : ℚ), (2 : ℚ)))] k)
    ∧ getMergedScale ⟨some [("a", ({ size := ((3 : ℚ), (4 : ℚ)) } : ScaleConfig))], none, none⟩ =
        spread DEFAULT_SCALE
          ([("a", ({ size := ((3 : ℚ), (4 : ℚ)) } : ScaleConfig))].map
            (fun p => (p.1, p.2.size)))) :=
  ⟨by decide, getMergedScale_merge_semantics [("a", ((1 : ℚ), (2 : ℚ)))]
    [("a", ({ size := ((3 : ℚ), (4 : ℚ)) } : ScaleConfig))] (by decide)⟩

/-! ### Claim C6 -/

/-- C6 (confirmed): the merge is idempotent: merging a base table with an
empty additions mapping yields the base table unchanged (in particular
`getMergedScale` of an empty custom-scale record is `DEFAULT_SCALE`), and
merging the result of a merge with the same additions again yields the same
table as merging once (in particular for `getMergedScale`). -/
theorem getMergedScale_idempotent (base : List (String × ScaleTuple))
    (cs : List (String × ScaleConfig)) (hnd : (cs.map Prod.fst).Nodup) :
    spread base ([] : List (String × ScaleTuple)) = base
    ∧ getMergedScale ⟨some [], none, none⟩ = DEFAULT_SCALE
    ∧ spread (spread base (cs.map (fun p => (p.1, p.2.size))))
        (cs.map (fun p => (p.1, p.2.size)))
        = spread base (cs.map (fun p => (p.1, p.2.size)))
    ∧ spread (getMergedScale ⟨some cs, none, none⟩) (cs.map (fun p => (p.1, p.2.size)))
        = getMergedScale ⟨some cs, none, none⟩ := by
  have hnd2 : ((cs.map (fun p => (p.1, p.2.size))).map Prod.fst).Nodup := by
    rw [List.map_map]
    exact hnd
  exact ⟨rfl, rfl, spread_idem base _ hnd2, spread_idem DEFAULT_SCALE _ hnd2⟩

/-- C6 witness: idempotence at the concrete base table `a -> (1, 2)` and the
concrete addition `a -> size (3, 4)`. -/
theorem getMergedScale_idempotent_witness :
    (([("a", ({ size := ((3 : ℚ), (4 : ℚ)) } : ScaleConfig))].map Prod.fst).Nodup)
    ∧ (spread [("a", ((1 : ℚ), (2 : ℚ)))] ([] : List (String × ScaleTuple)) =
        [("a", ((1 : ℚ), (2 : ℚ)))]
    ∧ getMergedScale ⟨some [], none, none⟩ = DEFAULT_SCALE
    ∧ spread (spread [("a", ((1 : ℚ), (2 : ℚ)))]
        ([("a", ({ size := ((3 : ℚ), (4 : ℚ)) } : ScaleConfig))].map
          (fun p => (p.1, p.2.size))))
        ([("a", ({ size := ((3 : ℚ), (4 : ℚ)) } : ScaleConfig))].map
          (fun p => (p.1, p.2.size)))
        = spread [("a", ((1 : ℚ), (2 : ℚ)))]
          ([("a", ({ size := ((3 : ℚ), (4 : ℚ)) } : ScaleConfig))].map
            (fun p => (p.1, p.2.size)))
    ∧ spread (getMergedScale ⟨some [("a", ({ size := ((3 : ℚ), (4 : ℚ)) } : ScaleConfig))], none, none⟩)
        ([("a", ({ size := ((3 : ℚ), (4 : ℚ)) } : ScaleConfig))].map
          (fun p => (p.1, p.2.size)))
        = getMergedScale ⟨some [("a", ({ size := ((3 : ℚ), (4 : ℚ)) } : ScaleConfig))], none, none⟩) :=
  ⟨by decide, getMergedScale_idempotent [("a", ((1 : ℚ), (2 : ℚ)))]
    [("a", ({ size := ((3 : ℚ), (4 : ℚ)) } : ScaleConfig))] (by decide)⟩

/-! ### Lookup of a custom entry in the merged rules -/

theorem rlookup_getMergedRules_mem (opts : PluginOptions) (cs : List (String × ScaleConfig))
    (hcs : opts.customScales = some cs) (hnd : (cs.map Prod.fst).Nodup)
    (name : String) (config : ScaleConfig) (hmem : (name, config) ∈ cs) :
    rlookup (getMergedRules opts) (".text-" ++ name) = some (ruleOfConfig config) := by
  have hsel : ((cs.map (fun p => (".text-" ++ p.1, ruleOfConfig p.2))).map Prod.fst) =
      (cs.map Prod.fst).map (fun s => ".text-" ++ s) := by
    rw [List.map_map, List.map_map]
    rfl
  have hnd2 : ((cs.map (fun p => (".text-" ++ p.1, ruleOfConfig p.2))).map Prod.fst).Nodup := by
    rw [hsel]
    exact hnd.map textSelector_injective
  have hmem2 : (".text-" ++ name, ruleOfConfig config) ∈
      cs.map (fun p => (".text-" ++ p.1, ruleOfConfig p.2)) :=
    List.mem_map_of_mem (fun p => (".text-" ++ p.1, ruleOfConfig p.2)) hmem
  simp only [getMergedRules, hcs]
  exact rlookup_spread_of_mem getDefaultRules hnd2 hmem2

/-! ### Claim C7 -/

/-- C7 (confirmed): for every name present in the custom-scale additions, the
built rule in the merged rules table has size equal to the addition size,
line height equal to the given one and 1.5 otherwise, font weight equal to the
given one and 400 otherwise, letter spacing copied as given (absent when
unset), and the uppercase flag set exactly when the addition transform is the
literal string `uppercase`. -/
theorem getMergedRules_custom_entry (cs : List (String × ScaleConfig)) (mv xv : Option ℚ)
    (hnd : (cs.map Prod.fst).Nodup) (name : String) (config : ScaleConfig)
    (hmem : (name, config) ∈ cs) :
    rlookup (getMergedRules ⟨some cs, mv, xv⟩) (".text-" ++ name) =
      some { size := config.size,
             lh := config.lineHeight.getD (3 / 2),
             weight := config.fontWeight.getD "400",
             tracking := config.letterSpacing,
             upper := decide (config.textTransform = some "uppercase") } :=
  rlookup_getMergedRules_mem ⟨some cs, mv, xv⟩ cs rfl hnd name config hmem

/-- C7 witness: the rule built for the concrete addition
`hero -> size (50, 80), lineHeight 1.1, fontWeight 900, letterSpacing -0.02em`. -/
theorem getMergedRules_custom_entry_witness :
    (([("hero", ({ size := ((50 : ℚ), (80 : ℚ)), lineHeight := some (11 / 10), fontWeight := some "900", letterSpacing := some "-0.02em" } : ScaleConfig))].map Prod.fst).Nodup)
    ∧ ("hero", ({ size := ((50 : ℚ), (80 : ℚ)), lineHeight := some (11 / 10), fontWeight := some "900", letterSpacing := some "-0.02em" } : ScaleConfig)) ∈
        [("hero", ({ size := ((50 : ℚ), (80 : ℚ)), lineHeight := some (11 / 10), fontWeight := some "900", letterSpacing := some "-0.02em" } : ScaleConfig))]
    ∧ rlookup (getMergedRules ⟨some [("hero", ({ size := ((50 : ℚ), (80 : ℚ)), lineHeight := some (11 / 10), fontWeight := some "900", letterSpacing := some "-0.02em" } : ScaleConfig))], none, none⟩) (".text-" ++ "hero") =
        some { size := ((50 : ℚ), (80 : ℚ)), lh := 11 / 10, weight := "900", tracking := some "-0.02em", upper := false } :=
  ⟨by decide, List.mem_singleton.mpr rfl,
    getMergedRules_custom_entry _ none none (by decide) "hero" _ (List.mem_singleton.mpr rfl)⟩

/-! ### Claim C4 -/

/-- C4, counterexample: a custom-scale addition whose size descriptor contains
a negative element is not rejected: the merge/build step succeeds and the
merged rules table contains the entry with the negative descriptor passed
through unchanged (no `InvalidScaleDescriptor` error exists in the code). -/
theorem negative_descriptor_passes :
    rlookup (getMergedRules ⟨some [("bad", { size := ((-5 : ℚ), (10 : ℚ)) })], none, none⟩)
        (".text-bad") =
      some { size := ((-5 : ℚ), (10 : ℚ)), lh := 3 / 2, weight := "400",
             tracking := none, upper := false } := rfl

/-- C4 (corrected): the merge/build step performs no descriptor validation:
for every custom-scale addition whose descriptor contains a negative element
(the two-element tuple type cannot represent fewer than two elements), the
configuration build succeeds and the entry appears in the merged rules table
unchanged, rather than failing with `InvalidScaleDescriptor`. -/
theorem getMergedRules_no_validation (cs : List (String × ScaleConfig))
    (hnd : (cs.map Prod.fst).Nodup) (name : String) (config : ScaleConfig)
    (hmem : (name, config) ∈ cs)
    (_hneg : config.size.1 < 0 ∨ config.size.2 < 0) :
    rlookup (getMergedRules ⟨some cs, none, none⟩) (".text-" ++ name) =
      some (ruleOfConfig config) :=
  rlookup_getMergedRules_mem ⟨some cs, none, none⟩ cs rfl hnd name config hmem

/-- C4 witness: the negative-element descriptor `bad -> size (-5, 10)` is
accepted and passed through. -/
theorem getMergedRules_no_validation_witness :
    (([("bad", ({ size := ((-5 : ℚ), (10 : ℚ)) } : ScaleConfig))].map Prod.fst).Nodup)
    ∧ ("bad", ({ size := ((-5 : ℚ), (10 : ℚ)) } : ScaleConfig)) ∈
        [("bad", ({ size := ((-5 : ℚ), (10 : ℚ)) } : ScaleConfig))]
    ∧ (({ size := ((-5 : ℚ), (10 : ℚ)) } : ScaleConfig).size.1 < 0 ∨
        ({ size := ((-5 : ℚ), (10 : ℚ)) } : ScaleConfig).size.2 < 0)
    ∧ rlookup (getMergedRules
        ⟨some [("bad", ({ size := ((-5 : ℚ), (10 : ℚ)) } : ScaleConfig))], none, none⟩)
        (".text-" ++ "bad") =
        some (ruleOfConfig ({ size := ((-5 : ℚ), (10 : ℚ)) } : ScaleConfig)) :=
  ⟨by decide, List.mem_singleton.mpr rfl, Or.inl (by norm_num),
    getMergedRules_no_validation _ (by decide) "bad" _ (List.mem_singleton.mpr rfl)
      (Or.inl (by norm_num))⟩

/-! ### Claim C3 -/

/-- C3, counterexample: with equal viewport bounds 375 and 375 no error is
raised: the plugin body still produces a components table whose `.text-h1`
entry carries a font-size formula string obtained by invoking `clampFromPx`
at the equal bounds, so a formula string is produced and no
`InvalidViewportBounds` validation happens first (no such error exists in the
code; in JavaScript the slope division by zero yields non-finite coefficients
inside the emitted string). -/
theorem equal_bounds_formula_produced :
    (rlookup (buildComponents ⟨none, some 375, some 375⟩) (".text-h1")).map
        StyleObject.fontSize
      = some (clampFromPx (28, 36) 375 375) := rfl

/-- C3 (corrected): the plugin performs no viewport-bounds validation: for
every options input with equal minimum and maximum viewport widths, and every
entry of the merged rules table, the plugin body still emits a style object
for that entry whose font size is the string returned by invoking
`clampFromPx` at those equal bounds, instead of raising
`InvalidViewportBounds` before any formula string is produced. -/
theorem plugin_equal_bounds_no_error (cs : Option (List (String × ScaleConfig))) (w : ℚ)
    (sel : String) (cfg : RuleConfig)
    (hmem : (sel, cfg) ∈ getMergedRules ⟨cs, some w, some w⟩) :
    (sel, mkStyle cfg w w) ∈ buildComponents ⟨cs, some w, some w⟩
    ∧ (mkStyle cfg w w).fontSize = clampFromPx cfg.size w w := by
  constructor
  · rw [buildComponents]
    exact List.mem_map_of_mem
      (fun p => (p.1, mkStyle p.2 ((some w).getD 375) ((some w).getD 1440))) hmem
  · rfl

/-- C3 witness: the `.text-h1` rule under equal bounds 375 and 375. -/
theorem plugin_equal_bounds_no_error_witness :
    (".text-h1", ({ size := (28, 36), lh := 1.2, weight := "700", tracking := some "-0.015em" } : RuleConfig)) ∈
        getMergedRules ⟨none, some 375, some 375⟩
    ∧ ((".text-h1", mkStyle ({ size := (28, 36), lh := 1.2, weight := "700", tracking := some "-0.015em" } : RuleConfig) 375 375) ∈
        buildComponents ⟨none, some 375, some 375⟩
    ∧ (mkStyle ({ size := (28, 36), lh := 1.2, weight := "700", tracking := some "-0.015em" } : RuleConfig) 375 375).fontSize =
        clampFromPx ({ size := (28, 36), lh := 1.2, weight := "700", tracking := some "-0.015em" } : RuleConfig).size 375 375) :=
  ⟨List.mem_cons_of_mem _ (List.mem_cons_of_mem _ (List.mem_cons_of_mem _
      (List.mem_cons_of_mem _ (List.mem_cons_self _ _)))),
    plugin_equal_bounds_no_error none 375 (".text-h1") _
      (List.mem_cons_of_mem _ (List.mem_cons_of_mem _ (List.mem_cons_of_mem _
        (List.mem_cons_of_mem _ (List.mem_cons_self _ _)))))⟩

/-! ### Claim C10 -/

/-- C10 (confirmed): every emitted style object either has textTransform equal
to `uppercase` or omits the property entirely, and for a custom scale entry
whose textTransform is `lowercase` or `capitalize` the emitted style object
for that entry has no textTransform at all. -/
theorem style_textTransform :
    (∀ opts : PluginOptions, ∀ q ∈ buildComponents opts,
        q.2.textTransform = some "uppercase" ∨ q.2.textTransform = none)
    ∧ ∀ (opts : PluginOptions) (cs : List (String × ScaleConfig)) (name : String)
        (config : ScaleConfig), opts.customScales = some cs → (cs.map Prod.fst).Nodup →
        (name, config) ∈ cs →
        (config.textTransform = some "lowercase" ∨ config.textTransform = some "capitalize") →
        (rlookup (buildComponents opts) (".text-" ++ name)).map StyleObject.textTransform =
          some none := by
  constructor
  · intro opts q hq
    rw [buildComponents] at hq
    rcases List.mem_map.mp hq with ⟨p, _, hp⟩
    rw [← hp]
    by_cases hu : p.2.upper
    · left
      simp [mkStyle, hu]
    · right
      simp [mkStyle, hu]
  · intro opts cs name config hcs hnd hmem hlc
    have hb : buildComponents opts = (getMergedRules opts).map
        (fun p => (p.1, mkStyle p.2 (opts.minViewportWidth.getD 375)
          (opts.maxViewportWidth.getD 1440))) := rfl
    rw [hb, rlookup_map_value (getMergedRules opts)
      (fun c => mkStyle c (opts.minViewportWidth.getD 375) (opts.maxViewportWidth.getD 1440))
      (".text-" ++ name)]
    rw [rlookup_getMergedRules_mem opts cs hcs hnd name config hmem]
    have hup : (ruleOfConfig config).upper = false := by
      rcases hlc with h | h <;> simp [ruleOfConfig, h]
    simp [mkStyle, hup]

/-- C10 witness: a custom scale `shout` with textTransform `lowercase` yields
a style object with textTransform absent, and every emitted style object has
either the uppercase transform or none. -/
theorem style_textTransform_witness :
    (⟨some [("shout", ({ size := ((10 : ℚ), (20 : ℚ)), textTransform := some "lowercase" } : ScaleConfig))], none, none⟩ : PluginOptions).customScales =
        some [("shout", ({ size := ((10 : ℚ), (20 : ℚ)), textTransform := some "lowercase" } : ScaleConfig))]
    ∧ (([("shout", ({ size := ((10 : ℚ), (20 : ℚ)), textTransform := some "lowercase" } : ScaleConfig))].map Prod.fst).Nodup)
    ∧ ("shout", ({ size := ((10 : ℚ), (20 : ℚ)), textTransform := some "lowercase" } : ScaleConfig)) ∈
        [("shout", ({ size := ((10 : ℚ), (20 : ℚ)), textTransform := some "lowercase" } : ScaleConfig))]
    ∧ (({ size := ((10 : ℚ), (20 : ℚ)), textTransform := some "lowercase" } : ScaleConfig).textTransform = some "lowercase" ∨
        ({ size := ((10 : ℚ), (20 : ℚ)), textTransform := some "lowercase" } : ScaleConfig).textTransform = some "capitalize")
    ∧ ((∀ q ∈ buildComponents ⟨some [("shout", ({ size := ((10 : ℚ), (20 : ℚ)), textTransform := some "lowercase" } : ScaleConfig))], none, none⟩,
          q.2.textTransform = some "uppercase" ∨ q.2.textTransform = none)
    ∧ (rlookup (buildComponents ⟨some [("shout", ({ size := ((10 : ℚ), (20 : ℚ)), textTransform := some "lowercase" } : ScaleConfig))], none, none⟩)
          (".text-" ++ "shout")).map StyleObject.textTransform = some none) :=
  ⟨rfl, by decide, List.mem_singleton.mpr rfl, Or.inl rfl,
    style_textTransform.1 _,
    style_textTransform.2 _ _ "shout" _ rfl (by decide) (List.mem_singleton.mpr rfl) (Or.inl rfl)⟩

/-! ### Linear interpolation lemmas -/

theorem linearAt_min (t : ScaleTuple) (minV maxV : ℚ) :
    linearAt t minV maxV minV = t.1 / 16 := by
  simp only [linearAt, interceptOf, slopeVwOf, clampMin]
  ring

theorem linearAt_max (t : ScaleTuple) (minV maxV : ℚ) (hV : minV < maxV) :
    linearAt t minV maxV maxV = t.2 / 16 := by
  have hne : maxV / 16 - minV / 16 ≠ 0 := by
    have : (0 : ℚ) < maxV / 16 - minV / 16 := by linarith
    exact ne_of_gt this
  have key : slopeOf t minV maxV * (maxV / 16 - minV / 16) = clampMax t - clampMin t := by
    rw [slopeOf]
    exact div_mul_cancel₀ _ hne
  have expand : interceptOf t minV maxV + slopeVwOf t minV maxV * (maxV / 1600) =
      clampMin t + slopeOf t minV maxV * (maxV / 16 - minV / 16) := by
    simp only [interceptOf, slopeVwOf]
    ring
  rw [linearAt, expand, key, clampMin, clampMax]
  ring

theorem slopeVwOf_nonneg (t : ScaleTuple) (minV maxV : ℚ)
    (hab : t.1 ≤ t.2) (hV : minV < maxV) : 0 ≤ slopeVwOf t minV maxV := by
  rw [slopeVwOf, slopeOf, clampMin, clampMax]
  have h1 : (0 : ℚ) ≤ t.2 / 16 - t.1 / 16 := by linarith
  have h2 : (0 : ℚ) ≤ maxV / 16 - minV / 16 := by linarith
  exact mul_nonneg (div_nonneg h1 h2) (by norm_num)

theorem linearAt_mono (t : ScaleTuple) (minV maxV : ℚ)
    (hs : 0 ≤ slopeVwOf t minV maxV) {v w : ℚ} (hvw : v ≤ w) :
    linearAt t minV maxV v ≤ linearAt t minV maxV w := by
  simp only [linearAt]
  have h : slopeVwOf t minV maxV * (v / 1600) ≤ slopeVwOf t minV maxV * (w / 1600) :=
    mul_le_mul_of_nonneg_left (by linarith) hs
  linarith

theorem linearRounded_close (t : ScaleTuple) (minV maxV v : ℚ) (hv : 0 ≤ v) :
    |linearRoundedAt t minV maxV v - linearAt t minV maxV v| ≤
      (1 + v / 1600) * (1 / 20000) := by
  have hd : linearRoundedAt t minV maxV v - linearAt t minV maxV v =
      (q4 (interceptOf t minV maxV) - interceptOf t minV maxV) +
      (q4 (slopeVwOf t minV maxV) - slopeVwOf t minV maxV) * (v / 1600) := by
    simp only [linearRoundedAt, linearAt]
    ring
  rw [hd]
  have h1 := q4_sub_abs_le (interceptOf t minV maxV)
  have h2 := q4_sub_abs_le (slopeVwOf t minV maxV)
  have hv16 : (0 : ℚ) ≤ v / 1600 := by positivity
  calc |(q4 (interceptOf t minV maxV) - interceptOf t minV maxV) +
      (q4 (slopeVwOf t minV maxV) - slopeVwOf t minV maxV) * (v / 1600)|
      ≤ |q4 (interceptOf t minV maxV) - interceptOf t minV maxV| +
        |(q4 (slopeVwOf t minV maxV) - slopeVwOf t minV maxV) * (v / 1600)| := abs_add _ _
    _ = |q4 (interceptOf t minV maxV) - interceptOf t minV maxV| +
        |q4 (slopeVwOf t minV maxV) - slopeVwOf t minV maxV| * (v / 1600) := by
          rw [abs_mul, abs_of_nonneg hv16]
    _ ≤ 1 / 20000 + 1 / 20000 * (v / 1600) := by
          have h3 := mul_le_mul_of_nonneg_right h2 hv16
          linarith
    _ = (1 + v / 1600) * (1 / 20000) := by ring

/-! ### Claim C2 -/

/-- C2 (confirmed): for every descriptor with first element at most the
second, and bounds with positive minimum strictly below the maximum: the
string is the clamp of the three rounded coefficients; the linear expression
inside the clamp takes value first/16 rem at the minimum viewport width and
second/16 rem at the maximum exactly with the unrounded coefficients, and up
to the four-decimal rounding tolerance with the printed coefficients; the
clamped value is constant first/16 below the minimum width, constant
second/16 above the maximum width, agrees with the linear expression (hence
is linear) in between, and is monotone non-decreasing, as is the printed
(rounded) linear expression. -/
theorem clampFromPx_interpolation (t : ScaleTuple) (minV maxV : ℚ)
    (hab : t.1 ≤ t.2) (hV : minV < maxV) (h0 : 0 < minV) :
    clampFromPx t minV maxV =
      "clamp(" ++ toFixed4 (clampMin t) ++ "rem, " ++ toFixed4 (interceptOf t minV maxV) ++
        "rem + " ++ toFixed4 (slopeVwOf t minV maxV) ++ "vw, " ++ toFixed4 (clampMax t) ++ "rem)"
    ∧ linearAt t minV maxV minV = t.1 / 16
    ∧ linearAt t minV maxV maxV = t.2 / 16
    ∧ |linearRoundedAt t minV maxV minV - t.1 / 16| ≤ (1 + minV / 1600) * (1 / 20000)
    ∧ |linearRoundedAt t minV maxV maxV - t.2 / 16| ≤ (1 + maxV / 1600) * (1 / 20000)
    ∧ (∀ v, v ≤ minV → clampAt t minV maxV v = t.1 / 16)
    ∧ (∀ v, maxV ≤ v → clampAt t minV maxV v = t.2 / 16)
    ∧ (∀ v, minV ≤ v → v ≤ maxV → clampAt t minV maxV v = linearAt t minV maxV v)
    ∧ (∀ v w, v ≤ w → clampAt t minV maxV v ≤ clampAt t minV maxV w)
    ∧ (∀ v w, 0 ≤ v → v ≤ w →
        linearRoundedAt t minV maxV v ≤ linearRoundedAt t minV maxV w) := by
  have hmin := linearAt_min t minV maxV
  have hmax := linearAt_max t minV maxV hV
  have hs := slopeVwOf_nonneg t minV maxV hab hV
  have hab16 : t.1 / 16 ≤ t.2 / 16 := by linarith
  refine ⟨rfl, hmin, hmax, ?_, ?_, ?_, ?_, ?_, ?_, ?_⟩
  · have h := linearRounded_close t minV maxV minV (le_of_lt h0)
    rw [hmin] at h
    exact h
  · have h := linearRounded_close t minV maxV maxV (by linarith)
    rw [hmax] at h
    exact h
  · intro v hv
    have hlin : linearAt t minV maxV v ≤ t.1 / 16 := by
      have := linearAt_mono t minV maxV hs hv
      rw [hmin] at this
      exact this
    simp only [clampAt, clampMin, clampMax]
    rw [min_eq_left (le_trans hlin hab16), max_eq_left hlin]
  · intro v hv
    have hlin : t.2 / 16 ≤ linearAt t minV maxV v := by
      have := linearAt_mono t minV maxV hs hv
      rw [hmax] at this
      exact this
    simp only [clampAt, clampMin, clampMax]
    rw [min_eq_right hlin, max_eq_right hab16]
  · intro v h1 h2
    have hlow : t.1 / 16 ≤ linearAt t minV maxV v := by
      have := linearAt_mono t minV maxV hs h1
      rw [hmin] at this
      exact this
    have hhigh : linearAt t minV maxV v ≤ t.2 / 16 := by
      have := linearAt_mono t minV maxV hs h2
      rw [hmax] at this
      exact this
    simp only [clampAt, clampMin, clampMax]
    rw [min_eq_left hhigh, max_eq_right hlow]
  · intro v w hvw
    simp only [clampAt]
    exact max_le_max (le_refl _) (min_le_min (linearAt_mono t minV maxV hs hvw) (le_refl _))
  · intro v w hv hvw
    simp only [linearRoundedAt]
    have hq : 0 ≤ q4 (slopeVwOf t minV maxV) := q4_nonneg _ hs
    have h := mul_le_mul_of_nonneg_left (show v / 1600 ≤ w / 1600 by linarith) hq
    linarith

/-- C2 witness: the interpolation guarantees at the concrete descriptor
`(28, 36)` and bounds 375 and 1440. -/
theorem clampFromPx_interpolation_witness :
    ((28 : ℚ) ≤ 36 ∧ (375 : ℚ) < 1440 ∧ (0 : ℚ) < 375)
    ∧ (clampFromPx ((28 : ℚ), (36 : ℚ)) 375 1440 =
      "clamp(" ++ toFixed4 (clampMin ((28 : ℚ), (36 : ℚ))) ++ "rem, " ++
        toFixed4 (interceptOf ((28 : ℚ), (36 : ℚ)) 375 1440) ++ "rem + " ++
        toFixed4 (slopeVwOf ((28 : ℚ), (36 : ℚ)) 375 1440) ++ "vw, " ++
        toFixed4 (clampMax ((28 : ℚ), (36 : ℚ))) ++ "rem)"
    ∧ linearAt ((28 : ℚ), (36 : ℚ)) 375 1440 375 = 28 / 16
    ∧ linearAt ((28 : ℚ), (36 : ℚ)) 375 1440 1440 = 36 / 16
    ∧ |linearRoundedAt ((28 : ℚ), (36 : ℚ)) 375 1440 375 - 28 / 16| ≤
        (1 + 375 / 1600) * (1 / 20000)
    ∧ |linearRoundedAt ((28 : ℚ), (36 : ℚ)) 375 1440 1440 - 36 / 16| ≤
        (1 + 1440 / 1600) * (1 / 20000)
    ∧ (∀ v, v ≤ 375 → clampAt ((28 : ℚ), (36 : ℚ)) 375 1440 v = 28 / 16)
    ∧ (∀ v, 1440 ≤ v → clampAt ((28 : ℚ), (36 : ℚ)) 375 1440 v = 36 / 16)
    ∧ (∀ v, 375 ≤ v → v ≤ 1440 →
        clampAt ((28 : ℚ), (36 : ℚ)) 375 1440 v = linearAt ((28 : ℚ), (36 : ℚ)) 375 1440 v)
    ∧ (∀ v w, v ≤ w →
        clampAt ((28 : ℚ), (36 : ℚ)) 375 1440 v ≤ clampAt ((28 : ℚ), (36 : ℚ)) 375 1440 w)
    ∧ (∀ v w, 0 ≤ v → v ≤ w →
        linearRoundedAt ((28 : ℚ), (36 : ℚ)) 375 1440 v ≤
          linearRoundedAt ((28 : ℚ), (36 : ℚ)) 375 1440 w)) :=
  ⟨⟨by norm_num, by norm_num, by norm_num⟩,
    clampFromPx_interpolation ((28 : ℚ), (36 : ℚ)) 375 1440 (by norm_num) (by norm_num)
      (by norm_num)⟩
